import Mathlib

/-!
Shallow embedding of `src/insole_app_with_explanation.py`:
the pressure-buffer decoder (`get_pressure_matrix`), the arch
classifier (`classify_arch_by_image`), the recommendation table
(`pattern_table`) and the hallux-valgus override in `main`.
-/

namespace InsoleApp

/-- The decode loop of `get_pressure_matrix` (lines 33–40):
`for i in range(0, 5400, 3)`) with `if i+2 >= len(data): break`, then
`val1 = (v1 << 4) | (v2 >> 4)`, `val2 = ((v2 & 0x0F) << 8) | v3`,
`sensor_values.extend([val1, val2])`.  `i` is the current index and
`fuel` the number of remaining loop iterations (1800 at the start). -/
def decodeGroups (data : List Nat) : Nat → Nat → List Nat
  | _, 0 => []
  | i, fuel + 1 =>
    if data.length ≤ i + 2 then []
    else
      ((data.getD i 0) <<< 4 ||| (data.getD (i+1) 0) >>> 4) ::
      (((data.getD (i+1) 0) &&& 0x0F) <<< 8 ||| (data.getD (i+2) 0)) ::
      decodeGroups data (i+3) fuel

/-- The full `sensor_values` list produced by the loop: 1800 iterations
starting at index 0. -/
def sensor_values (data : List Nat) : List Nat :=
  decodeGroups data 0 1800

/-- Row-major reshape helper: split a list into `k` rows of `width`
elements (the rows of `np.reshape((60, 60))`). -/
def toRows (width : Nat) : Nat → List Nat → List (List Nat)
  | 0, _ => []
  | k + 1, l => l.take width :: toRows width k (l.drop width)

/-- `np.array(sensor_values[:3600]).reshape((60, 60))` (line 42).
NumPy's reshape raises `ValueError` unless the element count is exactly
60·60; that failure is modelled as `none`. -/
def get_pressure_matrix (data : List Nat) : Option (List (List Nat)) :=
  let vals := (sensor_values data).take 3600
  if vals.length = 60 * 60 then some (toRows 60 60 vals) else none

example : sensor_values [0x12, 0x34, 0x56] = [291, 1110] := by decide

example : get_pressure_matrix [0x12, 0x34, 0x56] = none := by decide

/-! ### Decoder lemmas -/

theorem decodeGroups_length (data : List Nat) :
    ∀ fuel i, (decodeGroups data i fuel).length = 2 * min fuel ((data.length - i) / 3) := by
  intro fuel
  induction fuel with
  | zero => intro i; simp [decodeGroups]
  | succ n ih =>
    intro i
    simp only [decodeGroups]
    split
    · next h => simp only [List.length_nil]; omega
    · next h =>
      simp only [List.length_cons, ih (i + 3)]
      omega

theorem sensor_values_length (data : List Nat) :
    (sensor_values data).length = 2 * min 1800 (data.length / 3) := by
  simpa using decodeGroups_length data 1800 0

theorem decodeGroups_eq_flatMap (data : List Nat) :
    ∀ fuel i, i + 3 * fuel ≤ data.length →
      decodeGroups data i fuel =
        (List.range fuel).flatMap (fun g =>
          [(data.getD (i + 3 * g) 0) <<< 4 ||| (data.getD (i + 3 * g + 1) 0) >>> 4,
           ((data.getD (i + 3 * g + 1) 0) &&& 0x0F) <<< 8 ||| (data.getD (i + 3 * g + 2) 0)]) := by
  intro fuel
  induction fuel with
  | zero => intro i _; simp [decodeGroups]
  | succ n ih =>
    intro i h
    rw [List.range_succ_eq_map]
    simp only [decodeGroups]
    rw [if_neg (by omega)]
    rw [List.flatMap_cons, List.flatMap_map]
    rw [ih (i + 3) (by omega)]
    simp only [Nat.mul_zero, Nat.add_zero, List.cons_append, List.nil_append]
    congr 1
    congr 1
    apply List.flatMap_congr  -- pointwise equality of the group formulas
    intro g _
    have e1 : i + 3 * Nat.succ g = i + 3 + 3 * g := by omega
    rw [e1]

theorem getD_lt_of_forall_lt (data : List Nat) (hb : ∀ b ∈ data, b < 256) (j : Nat) :
    data.getD j 0 < 256 := by
  rcases Nat.lt_or_ge j data.length with hj | hj
  · rw [List.getD_eq_getElem?_getD, List.getElem?_eq_getElem hj]
    exact hb _ (List.getElem_mem hj)
  · rw [List.getD_eq_getElem?_getD, List.getElem?_eq_none hj]
    decide

theorem decodeGroups_val_lt (data : List Nat) (hb : ∀ b ∈ data, b < 256) :
    ∀ fuel i v, v ∈ decodeGroups data i fuel → v < 4096 := by
  intro fuel
  induction fuel with
  | zero => intro i v hv; simp [decodeGroups] at hv
  | succ n ih =>
    intro i v hv
    simp only [decodeGroups] at hv
    split at hv
    · simp at hv
    · rcases List.mem_cons.mp hv with rfl | hv
      · have h0 := getD_lt_of_forall_lt data hb i
        have h1 := getD_lt_of_forall_lt data hb (i + 1)
        have e4 : (2:ℕ) ^ 4 = 16 := rfl
        have e12 : (2:ℕ) ^ 12 = 4096 := rfl
        have : data.getD i 0 <<< 4 ||| data.getD (i+1) 0 >>> 4 < 2 ^ 12 := by
          apply Nat.or_lt_two_pow
          · rw [Nat.shiftLeft_eq, e4, e12]
            omega
          · rw [Nat.shiftRight_eq_div_pow, e4, e12]
            omega
        simpa [e12] using this
      rcases List.mem_cons.mp hv with rfl | hv
      · have h2 := getD_lt_of_forall_lt data hb (i + 2)
        have hand : data.getD (i+1) 0 &&& 0x0F ≤ 15 := Nat.and_le_right
        have e8 : (2:ℕ) ^ 8 = 256 := rfl
        have e12 : (2:ℕ) ^ 12 = 4096 := rfl
        have : (data.getD (i+1) 0 &&& 0x0F) <<< 8 ||| data.getD (i+2) 0 < 2 ^ 12 := by
          apply Nat.or_lt_two_pow
          · rw [Nat.shiftLeft_eq, e8, e12]
            omega
          · rw [e12]
            omega
        simpa [e12] using this
      · exact ih (i + 3) v hv

theorem toRows_length (width : Nat) :
    ∀ k (l : List Nat), (toRows width k l).length = k := by
  intro k
  induction k with
  | zero => intro l; simp [toRows]
  | succ n ih => intro l; simp [toRows, ih]

theorem toRows_row_length (width : Nat) :
    ∀ k (l : List Nat), width * k ≤ l.length →
      ∀ row ∈ toRows width k l, row.length = width := by
  intro k
  induction k with
  | zero => intro l _ row hrow; simp [toRows] at hrow
  | succ n ih =>
    intro l hl row hrow
    have hw : width * (n + 1) = width * n + width := by ring
    simp only [toRows, List.mem_cons] at hrow
    rcases hrow with rfl | hrow
    · rw [List.length_take]
      omega
    · have hd : width * n ≤ (l.drop width).length := by
        rw [List.length_drop]
        omega
      exact ih (l.drop width) hd row hrow

theorem toRows_flatten (width : Nat) :
    ∀ k (l : List Nat), l.length = width * k → (toRows width k l).flatten = l := by
  intro k
  induction k with
  | zero =>
    intro l hl
    simp only [Nat.mul_zero] at hl
    simp [toRows, List.eq_nil_of_length_eq_zero hl]
  | succ n ih =>
    intro l hl
    have hw : width * (n + 1) = width * n + width := by ring
    simp only [toRows, List.flatten_cons]
    rw [ih (l.drop width) (by rw [List.length_drop]; omega)]
    exact List.take_append_drop width l

theorem decodeGroups_congr (d1 d2 : List Nat) (h1 : 5400 ≤ d1.length)
    (h2 : 5400 ≤ d2.length) (hpre : d1.take 5400 = d2.take 5400) :
    ∀ fuel i, i + 3 * fuel ≤ 5400 → decodeGroups d1 i fuel = decodeGroups d2 i fuel := by
  have hg : ∀ j, j < 5400 → d1.getD j 0 = d2.getD j 0 := by
    intro j hj
    have e1 : (d1.take 5400)[j]? = d1[j]? := by rw [List.getElem?_take, if_pos hj]
    have e2 : (d2.take 5400)[j]? = d2[j]? := by rw [List.getElem?_take, if_pos hj]
    rw [List.getD_eq_getElem?_getD, List.getD_eq_getElem?_getD, ← e1, ← e2, hpre]
  intro fuel
  induction fuel with
  | zero => intro i _; simp [decodeGroups]
  | succ n ih =>
    intro i h
    simp only [decodeGroups]
    rw [if_neg (by omega), if_neg (by omega)]
    rw [hg i (by omega), hg (i+1) (by omega), hg (i+2) (by omega), ih (i+3) (by omega)]

/-! ### Decoder claims -/

/-- C1: for every 5400-byte buffer the decoder returns exactly a 60×60
grid whose row-major flattening is the emission sequence of the 1800
consecutive 3-byte groups, each group contributing
`value1 = (b0 <<< 4) ||| (b1 >>> 4)` and
`value2 = ((b1 &&& 0x0F) <<< 8) ||| b2`, and every entry lies in
[0, 4095]. -/
theorem get_pressure_matrix_valid_5400 (data : List Nat)
    (hlen : data.length = 5400) (hb : ∀ b ∈ data, b < 256) :
    ∃ m, get_pressure_matrix data = some m ∧ m.length = 60 ∧
      (∀ row ∈ m, row.length = 60) ∧ (∀ v ∈ m.flatten, v ≤ 4095) ∧
      m.flatten = (List.range 1800).flatMap (fun g =>
        [(data.getD (3 * g) 0) <<< 4 ||| (data.getD (3 * g + 1) 0) >>> 4,
         ((data.getD (3 * g + 1) 0) &&& 0x0F) <<< 8 ||| (data.getD (3 * g + 2) 0)]) := by
  have hsv : (sensor_values data).length = 3600 := by
    rw [sensor_values_length, hlen]
    omega
  have htake : (sensor_values data).take 3600 = sensor_values data :=
    List.take_of_length_le (by omega)
  refine ⟨toRows 60 60 ((sensor_values data).take 3600), ?_, ?_, ?_, ?_, ?_⟩
  · rw [get_pressure_matrix, if_pos (by rw [htake, hsv])]
  · exact toRows_length 60 60 _
  · exact toRows_row_length 60 60 _ (by rw [htake, hsv])
  · intro v hv
    rw [toRows_flatten 60 60 _ (by rw [htake, hsv]), htake] at hv
    have := decodeGroups_val_lt data hb 1800 0 v hv
    omega
  · rw [toRows_flatten 60 60 _ (by rw [htake, hsv]), htake]
    rw [sensor_values, decodeGroups_eq_flatMap data 1800 0 (by omega)]
    apply List.flatMap_congr
    intro g _
    simp only [Nat.zero_add]

/-- Witness for C1 at the all-zero 5400-byte buffer. -/
theorem get_pressure_matrix_valid_5400_witness :
    ∃ m, get_pressure_matrix (List.replicate 5400 0) = some m ∧ m.length = 60 ∧
      (∀ row ∈ m, row.length = 60) ∧ (∀ v ∈ m.flatten, v ≤ 4095) ∧
      m.flatten = (List.range 1800).flatMap (fun g =>
        [((List.replicate 5400 0).getD (3 * g) 0) <<< 4 |||
           ((List.replicate 5400 0).getD (3 * g + 1) 0) >>> 4,
         (((List.replicate 5400 0).getD (3 * g + 1) 0) &&& 0x0F) <<< 8 |||
           ((List.replicate 5400 0).getD (3 * g + 2) 0)]) :=
  get_pressure_matrix_valid_5400 (List.replicate 5400 0) (by rw [List.length_replicate])
    (fun b hb => by rw [List.eq_of_mem_replicate hb]; decide)

/-- C3: a short buffer decodes to fewer than 3600 samples, and then the
reshape step fails (NumPy raises `ValueError`, modelled as `none`): the
shortfall surfaces as an error instead of a malformed grid. -/
theorem get_pressure_matrix_shortfall (data : List Nat)
    (hshort : data.length < 5400) :
    (sensor_values data).length < 3600 ∧ get_pressure_matrix data = none := by
  have hsv : (sensor_values data).length < 3600 := by
    rw [sensor_values_length]; omega
  refine ⟨hsv, ?_⟩
  rw [get_pressure_matrix, if_neg]
  rw [List.length_take]
  omega

/-- Witness for C3 at the empty buffer. -/
theorem get_pressure_matrix_shortfall_witness :
    (sensor_values []).length < 3600 ∧ get_pressure_matrix [] = none :=
  get_pressure_matrix_shortfall [] (by decide)

/-- C7: the decoder's output depends only on the first 5400 bytes: two
buffers of length ≥ 5400 that agree on their first 5400 bytes decode to
identical matrices. -/
theorem get_pressure_matrix_first_5400 (d1 d2 : List Nat)
    (h1 : 5400 ≤ d1.length) (h2 : 5400 ≤ d2.length)
    (hpre : d1.take 5400 = d2.take 5400) :
    get_pressure_matrix d1 = get_pressure_matrix d2 := by
  have hsv : sensor_values d1 = sensor_values d2 :=
    decodeGroups_congr d1 d2 h1 h2 hpre 1800 0 (by omega)
  rw [get_pressure_matrix, get_pressure_matrix, hsv]

/-- Witness for C7: a 5404-byte all-zero buffer versus a 5400-byte
all-zero buffer extended with nonzero trailing bytes. -/
theorem get_pressure_matrix_first_5400_witness :
    get_pressure_matrix (List.replicate 5404 0) =
      get_pressure_matrix (List.replicate 5400 0 ++ [9, 9, 9, 9]) :=
  get_pressure_matrix_first_5400 _ _ (by rw [List.length_replicate]; omega)
    (by rw [List.length_append, List.length_replicate]; omega)
    (by
      rw [List.take_replicate,
          List.take_append_of_le_length (by rw [List.length_replicate]),
          List.take_replicate]
      have h1 : 5400 ⊓ 5404 = 5400 := by omega
      have h2 : 5400 ⊓ 5400 = 5400 := by omega
      rw [h1, h2])

/-- The known fixture of the spec: the 3-byte pattern
`[0x12, 0x34, 0x56]` repeated 1800 times, a 5400-byte buffer. -/
def fixture_buffer : List Nat :=
  (List.replicate 1800 [0x12, 0x34, 0x56]).flatten

theorem flatten_replicate_length (n : Nat) (l : List Nat) :
    ((List.replicate n l).flatten).length = n * l.length := by
  rw [List.length_flatten, List.map_replicate, List.sum_replicate, smul_eq_mul]

theorem flatten_replicate_getD (a b c : Nat) :
    ∀ n j, j < 3 * n →
      ((List.replicate n [a, b, c]).flatten).getD j 0 = [a, b, c].getD (j % 3) 0 := by
  intro n
  induction n with
  | zero => intro j hj; omega
  | succ m ih =>
    intro j hj
    rw [List.replicate_succ, List.flatten_cons]
    rcases Nat.lt_or_ge j 3 with h3 | h3
    · rw [List.getD_append _ _ _ j (by simpa using h3)]
      rw [Nat.mod_eq_of_lt h3]
    · rw [List.getD_append_right _ _ _ j (by simpa using h3)]
      have hlen : ([a, b, c] : List Nat).length = 3 := rfl
      rw [hlen, ih (j - 3) (by omega)]
      have : (j - 3) % 3 = j % 3 := by omega
      rw [this]

theorem flatten_replicate_eq_flatMap (n : Nat) (l : List Nat) :
    (List.replicate n l).flatten = (List.range n).flatMap (fun _ => l) := by
  induction n with
  | zero => simp
  | succ m ih =>
    rw [List.replicate_succ, List.flatten_cons, List.range_succ_eq_map,
        List.flatMap_cons, List.flatMap_map, ih]

/-- C8: the buffer `[0x12, 0x34, 0x56]` repeated 1800 times decodes so
that every 3-byte group yields the pair `(291, 1110)`: the resulting
60×60 matrix alternates 291, 1110 in row-major order. -/
theorem fixture_buffer_alternates :
    ∃ m, get_pressure_matrix fixture_buffer = some m ∧ m.length = 60 ∧
      (∀ row ∈ m, row.length = 60) ∧
      m.flatten = (List.replicate 1800 [291, 1110]).flatten := by
  have hlen : fixture_buffer.length = 5400 := by
    rw [fixture_buffer, flatten_replicate_length]
    rfl
  have hsv : (sensor_values fixture_buffer).length = 3600 := by
    rw [sensor_values_length, hlen]
    omega
  have htake : (sensor_values fixture_buffer).take 3600 = sensor_values fixture_buffer :=
    List.take_of_length_le (by omega)
  refine ⟨toRows 60 60 ((sensor_values fixture_buffer).take 3600), ?_, ?_, ?_, ?_⟩
  · rw [get_pressure_matrix, if_pos (by rw [htake, hsv])]
  · exact toRows_length 60 60 _
  · exact toRows_row_length 60 60 _ (by rw [htake, hsv])
  · rw [toRows_flatten 60 60 _ (by rw [htake, hsv]), htake]
    rw [sensor_values, decodeGroups_eq_flatMap fixture_buffer 1800 0 (by omega)]
    rw [flatten_replicate_eq_flatMap]
    apply List.flatMap_congr
    intro g hg
    have hg' : g < 1800 := List.mem_range.mp hg
    have e0 : fixture_buffer.getD (0 + 3 * g) 0 = 0x12 := by
      rw [fixture_buffer, flatten_replicate_getD _ _ _ 1800 _ (by omega)]
      have : (0 + 3 * g) % 3 = 0 := by omega
      rw [this]
      rfl
    have e1 : fixture_buffer.getD (0 + 3 * g + 1) 0 = 0x34 := by
      rw [fixture_buffer, flatten_replicate_getD _ _ _ 1800 _ (by omega)]
      have : (0 + 3 * g + 1) % 3 = 1 := by omega
      rw [this]
      rfl
    have e2 : fixture_buffer.getD (0 + 3 * g + 2) 0 = 0x56 := by
      rw [fixture_buffer, flatten_replicate_getD _ _ _ 1800 _ (by omega)]
      have : (0 + 3 * g + 2) % 3 = 2 := by omega
      rw [this]
      rfl
    rw [e0, e1, e2]
    decide

/-- C9: the decoder emits samples only in pairs from complete 3-byte
groups: the number of decoded values is `2 * min 1800 (len / 3)`, hence
always even; a trailing incomplete group of 1 or 2 bytes contributes no
value. -/
theorem sensor_values_count (data : List Nat) :
    (sensor_values data).length = 2 * min 1800 (data.length / 3) ∧
    Even (sensor_values data).length :=
  ⟨sensor_values_length data, by rw [sensor_values_length]; exact even_two_mul _⟩

/-! ### Arch classifier (`classify_arch_by_image`, lines 55–75)

The OpenCV library calls that produce the classifier's numeric inputs
are embedded as follows: the image is taken already in HSV space (the
output of `cv2.cvtColor(image_cv, cv2.COLOR_BGR2HSV)`, line 56), and
the contours extracted from the blurred, opened, thresholded grayscale
image (lines 59–64, `cv2.findContours`) are a parameter carrying each
contour's `cv2.contourArea` and `cv2.boundingRect` width and height.
The mask construction, pixel counting, two-largest selection,
bounding-box-area sum, ratio and thresholding are embedded from the
source. -/

/-- An HSV pixel as OpenCV represents it: hue 0–179, saturation and
value 0–255. -/
structure HSV where
  hue : Nat
  sat : Nat
  value : Nat
deriving DecidableEq

/-- `cv2.inRange(hsv, lo, hi)` at one pixel: every channel between its
bounds, inclusive. -/
def inRangeHSV (lo hi : Nat × Nat × Nat) (p : HSV) : Bool :=
  decide (lo.1 ≤ p.hue ∧ p.hue ≤ hi.1) &&
  decide (lo.2.1 ≤ p.sat ∧ p.sat ≤ hi.2.1) &&
  decide (lo.2.2 ≤ p.value ∧ p.value ≤ hi.2.2)

/-- Line 57: a pixel of the red mask, the union (bitwise `|`) of the
two red hue bands. -/
def red_pixel (p : HSV) : Bool :=
  inRangeHSV (0, 100, 100) (10, 255, 255) p ||
  inRangeHSV (160, 100, 100) (179, 255, 255) p

/-- Line 58: a pixel of the yellow mask. -/
def yellow_pixel (p : HSV) : Bool :=
  inRangeHSV (20, 100, 100) (35, 255, 255) p

/-- `red_mask` (line 57) over the whole image. -/
def red_mask (img : List (List HSV)) : List (List Bool) :=
  img.map (List.map red_pixel)

/-- `yellow_mask` (line 58) over the whole image. -/
def yellow_mask (img : List (List HSV)) : List (List Bool) :=
  img.map (List.map yellow_pixel)

/-- `cv2.countNonZero(mask)` (lines 67–68): the count of set pixels over
the entire mask, with no restriction to any bounding box. -/
def countNonZero (mask : List (List Bool)) : Nat :=
  (mask.map fun row => row.count true).sum

/-- A contour as the classifier consumes it: its `cv2.contourArea` and
the width and height of its `cv2.boundingRect`. -/
structure Contour where
  area : Nat
  w : Nat
  h : Nat
deriving DecidableEq

/-- Lines 65–66: sort the contours by area descending (Python's stable
`sorted(..., reverse=True)`), keep the two largest, and sum their
bounding-box areas `w * h`. -/
def total_bbox_area (contours : List Contour) : Nat :=
  (((contours.mergeSort fun c1 c2 => decide (c2.area ≤ c1.area)).take 2).map
    fun c => c.w * c.h).sum

/-- Line 69: `total_ratio = (red_area + yellow_area) / total_bbox_area
* 100 if total_bbox_area else 0`; Python's real-valued division is
modelled exactly over ℚ. -/
def total_ratio (red_area yellow_area bbox_area : Nat) : ℚ :=
  if bbox_area ≠ 0 then ((red_area : ℚ) + yellow_area) / bbox_area * 100 else 0

/-- Lines 70–75: the threshold classification of the computed ratio. -/
def classify_from_ratio (r : ℚ) : String :=
  if r < 22 then "High" else if r > 28 then "Flat" else "Normal"

/-- `classify_arch_by_image` (lines 55–75), over the HSV image and the
extracted contours. -/
def classify_arch_by_image (img : List (List HSV)) (contours : List Contour) : String :=
  classify_from_ratio
    (total_ratio (countNonZero (red_mask img)) (countNonZero (yellow_mask img))
      (total_bbox_area contours))

/-! ### Recommendation table and main-flow glue -/

/-- `pattern_table` (lines 91–96): the 12 (arch, leg-shape) pairs and
their insole numbers. -/
def pattern_table : List ((String × String) × Nat) :=
  [(("Flat", "O脚"), 1), (("Flat", "X脚"), 2), (("Flat", "正常"), 3),
   (("High", "O脚"), 4), (("High", "X脚"), 5), (("High", "正常"), 6),
   (("外反母趾", "O脚"), 7), (("外反母趾", "X脚"), 8), (("外反母趾", "正常"), 9),
   (("Normal", "O脚"), 10), (("Normal", "X脚"), 11), (("Normal", "正常"), 12)]

/-- The result of `pattern_table.get(pattern_key, "該当なし")` (line
132): an insole number, or the explicit no-match default `該当なし`. -/
inductive LookupResult where
  | found : Nat → LookupResult
  | noMatch : LookupResult
deriving DecidableEq

/-- `pattern_table.get(pattern_key, "該当なし")` (line 132). -/
def table_get (k : String × String) : LookupResult :=
  match pattern_table.lookup k with
  | some v => .found v
  | none => .noMatch

/-- Line 130: `arch_type = "外反母趾" if hallux_valgus else
classify_arch_by_image(image_cv)`. -/
def arch_type (hallux_valgus : Bool) (classified : String) : String :=
  if hallux_valgus then "外反母趾" else classified

/-! ### Classifier claims -/

/-- C2: the classifier returns "High" exactly for ratio < 22, "Flat"
exactly for ratio > 28 and "Normal" otherwise; in particular ratio 22
and ratio 28 give Normal, 21.9 gives High, 28.1 gives Flat. -/
theorem classify_from_ratio_thresholds :
    (∀ r : ℚ, (classify_from_ratio r = "High" ↔ r < 22) ∧
      (classify_from_ratio r = "Flat" ↔ 28 < r) ∧
      (classify_from_ratio r = "Normal" ↔ 22 ≤ r ∧ r ≤ 28)) ∧
    classify_from_ratio 22 = "Normal" ∧ classify_from_ratio 28 = "Normal" ∧
    classify_from_ratio (219/10) = "High" ∧ classify_from_ratio (281/10) = "Flat" := by
  have hHF : ("High" : String) ≠ "Flat" := by decide
  have hHN : ("High" : String) ≠ "Normal" := by decide
  have hFN : ("Flat" : String) ≠ "Normal" := by decide
  refine ⟨fun r => ?_, by norm_num [classify_from_ratio],
    by norm_num [classify_from_ratio], by norm_num [classify_from_ratio],
    by norm_num [classify_from_ratio]⟩
  unfold classify_from_ratio
  split_ifs with h1 h2
  · exact ⟨⟨fun _ => h1, fun _ => rfl⟩,
      ⟨fun he => absurd he hHF, fun hr => absurd h1 (by linarith)⟩,
      ⟨fun he => absurd he hHN, fun hr => absurd h1 (by linarith [hr.1])⟩⟩
  · exact ⟨⟨fun he => absurd he (Ne.symm hHF), fun hr => absurd hr h1⟩,
      ⟨fun _ => h2, fun _ => rfl⟩,
      ⟨fun he => absurd he hFN, fun hr => absurd h2 (by linarith [hr.2])⟩⟩
  · exact ⟨⟨fun he => absurd he (Ne.symm hHN), fun hr => absurd hr h1⟩,
      ⟨fun he => absurd he (Ne.symm hFN), fun hr => absurd hr h2⟩,
      ⟨fun _ => ⟨le_of_not_lt h1, le_of_not_lt h2⟩, fun _ => rfl⟩⟩

/-- C4: the classifier is total over images and contour sets, always
returning one of the three labels; when the kept contours' bounding-box
area sum is zero (e.g. no contours at all), the ratio is defined to be 0
and the label is "High". -/
theorem classify_arch_by_image_total (img : List (List HSV)) (contours : List Contour) :
    (classify_arch_by_image img contours = "High" ∨
     classify_arch_by_image img contours = "Flat" ∨
     classify_arch_by_image img contours = "Normal") ∧
    total_bbox_area ([] : List Contour) = 0 ∧
    (total_bbox_area contours = 0 →
      total_ratio (countNonZero (red_mask img)) (countNonZero (yellow_mask img))
          (total_bbox_area contours) = 0 ∧
      classify_arch_by_image img contours = "High") := by
  refine ⟨?_, by simp [total_bbox_area], fun h0 => ?_⟩
  · rw [classify_arch_by_image]
    unfold classify_from_ratio
    split_ifs
    · exact Or.inl rfl
    · exact Or.inr (Or.inl rfl)
    · exact Or.inr (Or.inr rfl)
  · have hr :
        total_ratio (countNonZero (red_mask img)) (countNonZero (yellow_mask img))
          (total_bbox_area contours) = 0 := by
      rw [total_ratio, h0]
      simp
    refine ⟨hr, ?_⟩
    rw [classify_arch_by_image, hr]
    norm_num [classify_from_ratio]

/-- Witness for C4: the solid-black (contourless) degenerate case, an
empty image with no contours, has ratio 0 and is classified "High". -/
theorem classify_arch_by_image_total_witness :
    total_ratio (countNonZero (red_mask ([] : List (List HSV))))
        (countNonZero (yellow_mask ([] : List (List HSV))))
        (total_bbox_area ([] : List Contour)) = 0 ∧
    classify_arch_by_image [] [] = "High" :=
  (classify_arch_by_image_total [] []).2.2 (by simp [total_bbox_area])

theorem count_true_map (f : HSV → Bool) (row : List HSV) :
    List.count true (List.map f row) = List.countP f row := by
  induction row with
  | nil => rfl
  | cons a l ih =>
    rw [List.map_cons, List.count_cons, List.countP_cons, ih]
    cases h : f a <;> simp [h]

/-- The mask pixel count ranges over the flattened whole image. -/
theorem countNonZero_map_eq_countP (f : HSV → Bool) (img : List (List HSV)) :
    countNonZero (img.map (List.map f)) = img.flatten.countP f := by
  induction img with
  | nil => rfl
  | cons row rest ih =>
    rw [List.map_cons, countNonZero, List.map_cons, List.sum_cons,
        List.flatten_cons, List.countP_append, ← ih, countNonZero]
    congr 1
    exact count_true_map f row

/-- C10: the numerator counts red and yellow pixels over the entire
image (not only inside the kept bounding boxes), and there is an input
whose ratio exceeds 100 — red pixels outnumber the bounding-box area —
which the classifier labels "Flat". -/
theorem ratio_can_exceed_100 :
    (∀ img : List (List HSV),
      countNonZero (red_mask img) = img.flatten.countP red_pixel ∧
      countNonZero (yellow_mask img) = img.flatten.countP yellow_pixel) ∧
    ∃ (img : List (List HSV)) (contours : List Contour),
      total_bbox_area contours < countNonZero (red_mask img) ∧
      100 < total_ratio (countNonZero (red_mask img)) (countNonZero (yellow_mask img))
          (total_bbox_area contours) ∧
      classify_arch_by_image img contours = "Flat" := by
  refine ⟨fun img => ⟨countNonZero_map_eq_countP red_pixel img,
    countNonZero_map_eq_countP yellow_pixel img⟩, ?_⟩
  refine ⟨[[⟨5, 200, 200⟩, ⟨5, 200, 200⟩], [⟨5, 200, 200⟩, ⟨5, 200, 200⟩]],
    [⟨1, 1, 1⟩], ?_, ?_, ?_⟩
  · have hred : countNonZero (red_mask
        [[⟨5, 200, 200⟩, ⟨5, 200, 200⟩], [⟨5, 200, 200⟩, ⟨5, 200, 200⟩]]) = 4 := by
      rfl
    rw [hred]
    have hbb : total_bbox_area [⟨1, 1, 1⟩] = 1 := by simp [total_bbox_area]
    rw [hbb]
    omega
  · have hbb : total_bbox_area [⟨1, 1, 1⟩] = 1 := by simp [total_bbox_area]
    rw [hbb]
    have hred : countNonZero (red_mask
        [[⟨5, 200, 200⟩, ⟨5, 200, 200⟩], [⟨5, 200, 200⟩, ⟨5, 200, 200⟩]]) = 4 := by
      rfl
    have hyel : countNonZero (yellow_mask
        [[⟨5, 200, 200⟩, ⟨5, 200, 200⟩], [⟨5, 200, 200⟩, ⟨5, 200, 200⟩]]) = 0 := by
      rfl
    rw [hred, hyel]
    norm_num [total_ratio]
  · have hbb : total_bbox_area [⟨1, 1, 1⟩] = 1 := by simp [total_bbox_area]
    rw [classify_arch_by_image, hbb]
    have hred : countNonZero (red_mask
        [[⟨5, 200, 200⟩, ⟨5, 200, 200⟩], [⟨5, 200, 200⟩, ⟨5, 200, 200⟩]]) = 4 := by
      rfl
    have hyel : countNonZero (yellow_mask
        [[⟨5, 200, 200⟩, ⟨5, 200, 200⟩], [⟨5, 200, 200⟩, ⟨5, 200, 200⟩]]) = 0 := by
      rfl
    rw [hred, hyel]
    norm_num [total_ratio, classify_from_ratio]

/-! ### Table and override claims -/

theorem lookup_mem {α β : Type} [BEq α] [LawfulBEq α] :
    ∀ (l : List (α × β)) {a : α} {b : β}, l.lookup a = some b → (a, b) ∈ l := by
  intro l
  induction l with
  | nil => intro a b h; simp [List.lookup] at h
  | cons p rest ih =>
    intro a b h
    obtain ⟨k, v⟩ := p
    rw [List.lookup_cons] at h
    rcases hbeq : a == k with _ | _
    · rw [hbeq] at h
      exact List.mem_cons_of_mem _ (ih h)
    · rw [hbeq] at h
      injection h with hv
      have hk : a = k := eq_of_beq hbeq
      rw [List.mem_cons]
      left
      rw [hk, hv]

/-- C5: every one of the 12 (arch, leg) pairs maps to its enumerated
insole number in 1–12 (in particular (Normal, O脚) ↦ 10), and any key
outside the table yields the explicit no-match result. -/
theorem pattern_table_lookup :
    (∀ k v, (k, v) ∈ pattern_table → table_get k = .found v ∧ 1 ≤ v ∧ v ≤ 12) ∧
    table_get ("Normal", "O脚") = .found 10 ∧
    (∀ k, k ∉ pattern_table.map Prod.fst → table_get k = .noMatch) := by
  refine ⟨?_, by decide, ?_⟩
  · intro k v hkv
    fin_cases hkv <;> exact ⟨by decide, by decide, by decide⟩
  · intro k hk
    rw [table_get]
    split
    · next v hv =>
      exact absurd (List.mem_map_of_mem Prod.fst (lookup_mem pattern_table hv)) hk
    · rfl

/-- Witness for C5: a defined pair and an undefined pair. -/
theorem pattern_table_lookup_witness :
    table_get ("Flat", "O脚") = .found 1 ∧
    table_get ("Foo", "Bar") = .noMatch :=
  ⟨(pattern_table_lookup.1 ("Flat", "O脚") 1 (by decide)).1,
   pattern_table_lookup.2.2 ("Foo", "Bar") (by decide)⟩

/-- C6: with the hallux-valgus flag set the arch label is 外反母趾
("HalluxValgus") whatever the classifier would have said; with the flag
unset it is exactly the classifier's output. -/
theorem arch_type_override :
    (∀ classified : String, arch_type true classified = "外反母趾") ∧
    (∀ (img : List (List HSV)) (contours : List Contour),
      arch_type false (classify_arch_by_image img contours) =
        classify_arch_by_image img contours) :=
  ⟨fun _ => rfl, fun _ _ => rfl⟩

end InsoleApp
